import Mathlib

/-
Verification of the certificate-organizer pipeline (src/main.py).

The pure logic of the script is shallowly embedded here:
- `clean_company_name` mirrors the regex pipeline of lines 79-101;
- `validate_file` mirrors lines 55-77;
- `get_company_name_from_pdf` mirrors the retry loop of lines 156-227,
  with the external generative-model call abstracted as a function from
  the attempt index to its outcome;
- `save_certificate_to_company_folder` mirrors lines 229-274, with the
  filesystem abstracted as the list of paths that exist;
- `processOne`/`runBatch` mirror the per-file loop of lines 502-625.
-/

namespace CertClustering

/-- Python whitespace (`\s` of the `re` module and `str.strip`): the Unicode
whitespace code points, written out by code point. -/
def isPySpace (c : Char) : Bool :=
  c.toNat == 0x20 || (0x9 ≤ c.toNat && c.toNat ≤ 0xD) ||
  (0x1C ≤ c.toNat && c.toNat ≤ 0x1F) ||
  c.toNat == 0x85 || c.toNat == 0xA0 || c.toNat == 0x1680 ||
  (0x2000 ≤ c.toNat && c.toNat ≤ 0x200A) || c.toNat == 0x2028 ||
  c.toNat == 0x2029 || c.toNat == 0x202F || c.toNat == 0x205F ||
  c.toNat == 0x3000

/-- ASCII lowercasing, modelling `re.IGNORECASE` matching on the ASCII
letters the patterns of `clean_company_name` consist of. -/
def toLowerAscii (c : Char) : Char :=
  if 0x41 ≤ c.toNat ∧ c.toNat ≤ 0x5A then Char.ofNat (c.toNat + 0x20) else c

/-- If `l` starts with `pat` case-insensitively (pat given in lowercase),
the rest of `l`; otherwise `none`. -/
def matchDropCI : List Char → List Char → Option (List Char)
  | [], l => some l
  | _ :: _, [] => none
  | p :: ps, c :: cs => if toLowerAscii c = p then matchDropCI ps cs else none

/-- One alternative of the anchored pattern `^(The\s+|A\s+)` (case
insensitive): the article `pat` followed by at least one whitespace
character; on a match, the remainder with the whole whitespace run
consumed (the greedy `\s+`, replaced by the empty string). -/
def articleRest (pat l : List Char) : Option (List Char) :=
  match matchDropCI pat l with
  | some (c :: cs) =>
    if isPySpace c then some ((c :: cs).dropWhile isPySpace) else none
  | _ => none

/-- `re.sub(r'^(The\s+|A\s+)', '', s, flags=re.IGNORECASE)` (line 93): the
anchor allows at most one removal, at the start of the string. -/
def stripArticle (l : List Char) : List Char :=
  match articleRest "the".data l with
  | some r => r
  | none =>
    match articleRest "a".data l with
    | some r => r
    | none => l

/-- The alternatives of `\s+(Inc\.?|LLC\.?|Ltd\.?|Corporation|Corp\.?|Company|Co\.?)$`
(line 94), each with and without the optional dot, in lowercase. -/
def legalSuffixes : List (List Char) :=
  ["inc", "inc.", "llc", "llc.", "ltd", "ltd.", "corporation", "corp",
   "corp.", "company", "co", "co."].map String.data

/-- The last `alt.length` characters of `l` equal `alt` case-insensitively.
List equality carries the lengths, so a too-short `l` never matches. -/
def endsWithCI (alt l : List Char) : Bool :=
  (l.drop (l.length - alt.length)).map toLowerAscii == alt

/-- The character immediately before the suffix occurrence is whitespace
(the mandatory `\s+` of the pattern). -/
def wsBeforeSuffix (alt l : List Char) : Bool :=
  match (l.take (l.length - alt.length)).getLast? with
  | some c => isPySpace c
  | none => false

/-- `re.sub(r'\s+(Inc...|Co\.?)$', '', s, flags=re.IGNORECASE)` (line 94):
anchored at the end, so at most one removal: the suffix word together with
the contiguous whitespace run before it (the leftmost-starting match takes
the whole run). -/
def stripLegalSuffix (l : List Char) : List Char :=
  match legalSuffixes.find? (fun alt => endsWithCI alt l && wsBeforeSuffix alt l) with
  | some alt => ((l.take (l.length - alt.length)).reverse.dropWhile isPySpace).reverse
  | none => l

/-- The character class `[<>:"/\\|?*]` of line 97. -/
def invalidFsChars : List Char :=
  ['<', '>', ':', Char.ofNat 0x22, '/', '\\', '|', '?', '*']

/-- `re.sub(r'[<>:"/\\|?*]', '_', s)` (line 97). -/
def replaceBadChars (l : List Char) : List Char :=
  l.map fun c => if invalidFsChars.contains c then '_' else c

/-- `re.sub(r'\s+', '_', s)` (line 98): each maximal whitespace run becomes
one underscore; the boolean records whether the previous character was part
of a run already replaced. -/
def collapseGo : Bool → List Char → List Char
  | _, [] => []
  | prevWs, c :: cs =>
    if isPySpace c then
      if prevWs then collapseGo true cs else '_' :: collapseGo true cs
    else c :: collapseGo false cs

/-- Both-ends stripping (`str.strip`), over a character predicate. -/
def stripEnds (p : Char → Bool) (l : List Char) : List Char :=
  ((l.dropWhile p).reverse.dropWhile p).reverse

/-- `clean_company_name` (src/main.py lines 79-101). -/
def clean_company_name (s : String) : String :=
  if s = "" then "Unknown_Company"
  else
    let l1 := stripArticle s.data
    let l2 := stripLegalSuffix l1
    let l3 := replaceBadChars l2
    let l4 := collapseGo false (stripEnds isPySpace l3)
    String.mk (l4.take 50)

example : clean_company_name "The Coursera Inc." = "Coursera" := by decide
example : clean_company_name "" = "Unknown_Company" := by decide
example : clean_company_name "The " = "" := by decide
example : clean_company_name "a  Google   LLC" = "Google" := by decide
example : clean_company_name "Micro<soft> Corp." = "Micro_soft_" := by decide
example : clean_company_name "X Co Co." = "X_Co" := by decide

/-- A Streamlit upload: the attributes `validate_file` reads.  `size` is in
bytes, `type` the browser-reported MIME type. -/
structure UploadedFile where
  size : Nat
  type : String

/-- `validate_file` (src/main.py lines 55-77).  A missing upload (`None`,
the only falsy value the uploader hands over) is `none`.  The comparison
`uploaded_file.size / (1024 * 1024) > MAX_FILE_SIZE_MB` divides by a power
of two, which is exact in floating point, so it is the integer comparison
`size > 200 * 1024 * 1024`.  The interpolated size figure of the oversize
message is abstracted away. -/
def validate_file : Option UploadedFile → Bool × String
  | none => (false, "No file uploaded")
  | some f =>
    if f.size > 200 * 1024 * 1024 then
      (false, "File size exceeds maximum allowed size (200MB)")
    else if f.type ≠ "application/pdf" then
      (false, "Only PDF files are supported")
    else
      (true, "")

/-- One call to the external generative model inside the `try` of lines
200-218: it either raises an exception carrying a message, or yields a
response text.  A falsy response object or empty/`None` `response.text`
(the test `if response and response.text` of line 204) is modelled as the
empty text. -/
inductive ServiceOutcome where
  | throws (msg : String)
  | respond (text : String)

/-- The characters of `company_name.strip('"\x27\x60')` (line 207). -/
def pyQuoteChars : List Char := [Char.ofNat 0x22, Char.ofNat 0x27, Char.ofNat 0x60]

/-- The `for attempt in range(max_retries)` loop of lines 199-224, counting
down the remaining iterations.  The second component of the result counts
how many times the service was invoked (the elapsed-time return of the
source is not modelled).  `service` maps the attempt index to the outcome
of that attempt's `generate_content` call. -/
def extractLoop (service : Nat → ServiceOutcome) (max_retries : Nat) :
    Nat → Nat → String × Nat
  | _, 0 => ("Unknown_Company", 0)
  | attempt, remaining + 1 =>
    match service attempt with
    | .respond t =>
      if t = "" then
        let p := extractLoop service max_retries (attempt + 1) remaining
        (p.1, p.2 + 1)
      else
        let company_name :=
          clean_company_name
            (String.mk (stripEnds (fun c => pyQuoteChars.contains c)
              (stripEnds isPySpace t.data)))
        if company_name ≠ "" ∧ company_name ≠ "Unknown_Company" ∧
            company_name.length > 1 then
          (company_name, 1)
        else
          let p := extractLoop service max_retries (attempt + 1) remaining
          (p.1, p.2 + 1)
    | .throws e =>
      if attempt = max_retries - 1 then
        ("Error extracting company name: " ++ e, 1)
      else
        let p := extractLoop service max_retries (attempt + 1) remaining
        (p.1, p.2 + 1)

/-- `get_company_name_from_pdf` (src/main.py lines 156-227): the returned
string, paired with the number of service invocations made. -/
def get_company_name_from_pdf (service : Nat → ServiceOutcome)
    (max_retries : Nat := 3) : String × Nat :=
  extractLoop service max_retries 0 max_retries

example :
    get_company_name_from_pdf (fun _ => .throws "boom") 3 =
      ("Error extracting company name: boom", 3) := by decide
example :
    get_company_name_from_pdf (fun _ => .respond "") 3 = ("Unknown_Company", 3) := by
  decide
example :
    get_company_name_from_pdf (fun _ => .respond "  \x22The Coursera Inc.\x22 ") 3 =
      ("Coursera", 1) := by decide
example :
    get_company_name_from_pdf (fun _ => .respond "X") 3 = ("Unknown_Company", 3) := by
  decide

/-- Decimal digit characters of `n`, most significant first, with explicit
fuel so that the kernel can evaluate it; the fuel bounds the number of
divisions by ten, so fuel `n` always suffices. -/
def natDecimalAux : Nat → Nat → List Char
  | 0, n => [Nat.digitChar n]
  | fuel + 1, n =>
    if n < 10 then [Nat.digitChar n]
    else natDecimalAux fuel (n / 10) ++ [Nat.digitChar (n % 10)]

/-- Decimal rendering of a natural number, as Python's `f"{counter}"`
writes the probe counter. -/
def natDecimal (n : Nat) : List Char := natDecimalAux n n

/-- `os.path.join` for one component on POSIX (src/main.py runs it at lines
247 and 254): an absolute second component replaces the first; otherwise
the separator is inserted unless one is already there or the first
component is empty. -/
def posixJoin (a b : String) : String :=
  if b.data.head? = some '/' then b
  else if a.data = [] ∨ a.data.getLast? = some '/' then a ++ b
  else a ++ "/" ++ b

/-- The root part of `os.path.splitext` on POSIX (line 252): cut at the
last dot when it comes after the last separator and the piece between them
is not all dots (a leading-dot file keeps its name). -/
def lastIdxOf (c : Char) (l : List Char) : Option Nat :=
  (l.enum.filter (fun p => p.2 = c)).getLast?.map (·.1)

/-- See `lastIdxOf`; this is `posixpath.splitext(p)[0]`.  Python compares
`dotIndex > sepIndex` with `-1` for a missing index; with `fi` standing
for `sepIndex + 1` (`0` when there is no separator) that is `fi ≤ d`. -/
def splitextRoot (s : String) : String :=
  let l := s.data
  match lastIdxOf '.' l with
  | none => s
  | some d =>
    let fi := match lastIdxOf '/' l with
      | none => 0
      | some sep => sep + 1
    if fi ≤ d then
      if ((l.drop fi).take (d - fi)).any (fun ch => ch ≠ '.') then
        String.mk (l.take d)
      else s
    else s

example : splitextRoot "cert.pdf" = "cert" := by decide
example : splitextRoot "archive.tar.gz" = "archive.tar" := by decide
example : splitextRoot ".bashrc" = ".bashrc" := by decide
example : splitextRoot "nodot" = "nodot" := by decide
example : splitextRoot "a.b/c" = "a.b/c" := by decide

/-- The filename candidates of lines 251-261: first
`{base_name}_{timestamp}.pdf`, then `{base_name}_{timestamp}_{counter}.pdf`
for the counter 1, 2, ... -/
def candName (base ts : String) : Nat → String
  | 0 => base ++ "_" ++ ts ++ ".pdf"
  | k + 1 => base ++ "_" ++ ts ++ "_" ++ String.mk (natDecimal (k + 1)) ++ ".pdf"

/-- The `while os.path.exists(file_path)` probe of lines 257-261 over the
abstract filesystem `fs` (the list of paths that exist), with explicit
fuel; `save_certificate_to_company_folder` passes fuel `fs.length`, which
`probeName_not_mem` below shows suffices for the loop to have ended. -/
def probeName (fs : List String) (cand : Nat → String) : Nat → Nat → String
  | 0, k => cand k
  | fuel + 1, k => if cand k ∈ fs then probeName fs cand fuel (k + 1) else cand k

/-- `save_certificate_to_company_folder` (src/main.py lines 229-274).  The
filesystem is the list `fs` of existing paths; `timestamp` stands for the
`datetime.now()` string of line 251.  Returns the path written and the
filesystem after the write. -/
def save_certificate_to_company_folder (fs : List String)
    (company_name timestamp original_filename : String) : String × List String :=
  let folder_path := posixJoin "certificates" company_name
  let base_name := splitextRoot original_filename
  let file_path :=
    probeName fs (fun k => posixJoin folder_path (candName base_name timestamp k))
      fs.length 0
  (file_path, file_path :: fs)

example :
    (save_certificate_to_company_folder [] "Coursera" "T" "cert.pdf").1 =
      "certificates/Coursera/cert_T.pdf" := by decide
example :
    (save_certificate_to_company_folder ["certificates/Coursera/cert_T.pdf"]
      "Coursera" "T" "cert.pdf").1 = "certificates/Coursera/cert_T_1.pdf" := by decide
example :
    (save_certificate_to_company_folder [] "/x" "T" "cert.pdf").1 =
      "/x/cert_T.pdf" := by decide

/-- The success/failure counters of `st.session_state.processing_stats`
that the batch loop updates. -/
structure BatchStats where
  successful : Nat
  failed : Nat
deriving DecidableEq

/-- One uploaded file of a batch together with the behaviour of the
fallible stages on it: `pdfResult` is what `process_uploaded_pdf` does
(`Except.error` when it raises), `companyName` what
`get_company_name_from_pdf` returns (it catches its own exceptions), and
`saveResult` the saved path or the exception message of
`save_certificate_to_company_folder`. -/
structure FileJob where
  size : Nat
  mime : String
  pdfResult : Except String Unit
  companyName : String
  saveResult : Except String String

/-- A record appended to `results` for one file (the dictionaries built at
lines 511-516, 576-582, 604-610 and 617-622 of src/main.py; the fields the
claims do not touch are omitted). -/
structure FileRecord where
  status : String
  company_name : String
  message : String
deriving DecidableEq

/-- Python's substring test `pat in s`: some tail of `l` starts with
`pat`. -/
def containsSub (pat : List Char) : List Char → Bool
  | [] => pat.isEmpty
  | c :: cs => pat.isPrefixOf (c :: cs) || containsSub pat cs

/-- The body of `for i, file in enumerate(uploaded_files)` (src/main.py
lines 502-625): validation failure, a raised exception, the
success branch and the warning branch each append one record and bump one
counter.  The success test of line 542 is
`"Error" not in company_name and company_name != "Unknown_Company"`, a
substring test. -/
def processOne (st : BatchStats) (job : FileJob) : BatchStats × FileRecord :=
  let v := validate_file (some ⟨job.size, job.mime⟩)
  if v.1 = false then
    ({st with failed := st.failed + 1}, ⟨"error", "N/A", v.2⟩)
  else
    match job.pdfResult with
    | .error e =>
      ({st with failed := st.failed + 1}, ⟨"error", "N/A", "Processing error: " ++ e⟩)
    | .ok _ =>
      if containsSub "Error".data job.companyName.data = false ∧
          job.companyName ≠ "Unknown_Company" then
        match job.saveResult with
        | .error e =>
          ({st with failed := st.failed + 1},
           ⟨"error", "N/A", "Processing error: " ++ e⟩)
        | .ok path =>
          ({st with successful := st.successful + 1},
           ⟨"success", job.companyName, "Saved to " ++ path⟩)
      else
        ({st with failed := st.failed + 1},
         ⟨"warning", job.companyName, "Could not extract company name reliably"⟩)

/-- The whole batch loop: counters start at `0`/`0` (line 489-494) and every
file of the list is processed in order, each appending its record. -/
def runBatch (jobs : List FileJob) : BatchStats × List FileRecord :=
  jobs.foldl (fun acc job =>
    let r := processOne acc.1 job
    (r.1, acc.2 ++ [r.2])) (⟨0, 0⟩, [])

example :
    runBatch [⟨1000, "text/plain", .ok (), "Coursera", .ok "p"⟩,
              ⟨1000, "application/pdf", .error "bad pdf", "Coursera", .ok "p"⟩,
              ⟨1000, "application/pdf", .ok (), "Coursera", .ok "certificates/Coursera/a.pdf"⟩,
              ⟨1000, "application/pdf", .ok (), "Unknown_Company", .ok "p"⟩,
              ⟨1000, "application/pdf", .ok (), "Coursera", .error "disk full"⟩] =
    (⟨1, 4⟩,
     [⟨"error", "N/A", "Only PDF files are supported"⟩,
      ⟨"error", "N/A", "Processing error: bad pdf"⟩,
      ⟨"success", "Coursera", "Saved to certificates/Coursera/a.pdf"⟩,
      ⟨"warning", "Unknown_Company", "Could not extract company name reliably"⟩,
      ⟨"error", "N/A", "Processing error: disk full"⟩]) := by decide

/-! ### Character-level facts about the cleaning pipeline -/

theorem mem_collapseGo_not_space :
    ∀ (l : List Char) (b : Bool), ∀ c ∈ collapseGo b l, isPySpace c = false := by
  intro l
  induction l with
  | nil => intro b c hc; simp [collapseGo] at hc
  | cons a as ih =>
    intro b c hc
    by_cases ha : isPySpace a = true
    · cases b with
      | true => simp [collapseGo, ha] at hc; exact ih true c hc
      | false =>
        simp [collapseGo, ha] at hc
        rcases hc with hc | hc
        · subst hc; decide
        · exact ih true c hc
    · simp [collapseGo, ha] at hc
      rcases hc with hc | hc
      · subst hc; simpa using ha
      · exact ih false c hc

theorem mem_of_mem_collapseGo :
    ∀ (l : List Char) (b : Bool), ∀ c ∈ collapseGo b l, c = '_' ∨ c ∈ l := by
  intro l
  induction l with
  | nil => intro b c hc; simp [collapseGo] at hc
  | cons a as ih =>
    intro b c hc
    by_cases ha : isPySpace a = true
    · cases b with
      | true =>
        simp [collapseGo, ha] at hc
        rcases ih true c hc with h | h
        · exact Or.inl h
        · exact Or.inr (List.mem_cons_of_mem _ h)
      | false =>
        simp [collapseGo, ha] at hc
        rcases hc with hc | hc
        · exact Or.inl hc
        · rcases ih true c hc with h | h
          · exact Or.inl h
          · exact Or.inr (List.mem_cons_of_mem _ h)
    · simp [collapseGo, ha] at hc
      rcases hc with hc | hc
      · exact Or.inr (by simp [hc])
      · rcases ih false c hc with h | h
        · exact Or.inl h
        · exact Or.inr (List.mem_cons_of_mem _ h)

theorem mem_of_mem_stripEnds (p : Char → Bool) (l : List Char) :
    ∀ c ∈ stripEnds p l, c ∈ l := by
  intro c hc
  unfold stripEnds at hc
  rw [List.mem_reverse] at hc
  have h1 := (List.dropWhile_sublist (l := (l.dropWhile p).reverse) (p := p)).subset hc
  rw [List.mem_reverse] at h1
  exact (List.dropWhile_sublist (l := l) (p := p)).subset h1

theorem mem_replaceBad_not_bad (l : List Char) :
    ∀ c ∈ replaceBadChars l, invalidFsChars.contains c = false := by
  intro c hc
  unfold replaceBadChars at hc
  rcases List.mem_map.mp hc with ⟨a, _, ha⟩
  by_cases hb : invalidFsChars.contains a = true
  · rw [if_pos hb] at ha; subst ha; decide
  · rw [if_neg hb] at ha; subst ha; simpa using hb

theorem clean_no_space (s : String) :
    ∀ c ∈ (clean_company_name s).data, isPySpace c = false := by
  unfold clean_company_name
  split
  · decide
  · intro c hc
    simp only [String.mk] at hc
    have hc2 := (List.take_sublist _ _).subset hc
    exact mem_collapseGo_not_space _ _ _ hc2

theorem clean_no_bad (s : String) :
    ∀ c ∈ (clean_company_name s).data, invalidFsChars.contains c = false := by
  unfold clean_company_name
  split
  · decide
  · intro c hc
    simp only [String.mk] at hc
    have hc2 := (List.take_sublist _ _).subset hc
    rcases mem_of_mem_collapseGo _ _ _ hc2 with h | h
    · subst h; decide
    · exact mem_replaceBad_not_bad _ _ (mem_of_mem_stripEnds _ _ _ h)

theorem clean_len_le (s : String) : (clean_company_name s).data.length ≤ 50 := by
  unfold clean_company_name
  split
  · decide
  · simp only [String.mk]
    calc (List.take 50 _).length ≤ 50 := by
          rw [List.length_take]; exact Nat.min_le_left _ _

/-- C1: for every input string, `clean_company_name` returns a string with
none of the characters `<>:"/\|?*` and of length at most 50. -/
theorem clean_company_name_fs_safe (s : String) :
    ((clean_company_name s).data.all fun c => !(invalidFsChars.contains c)) = true ∧
    (clean_company_name s).length ≤ 50 := by
  constructor
  · rw [List.all_eq_true]
    intro c hc
    rw [Bool.not_eq_true']
    exact clean_no_bad s c hc
  · exact clean_len_le s

/-- C6: `clean_company_name "The Coursera Inc."` is exactly `"Coursera"`. -/
theorem clean_company_name_coursera :
    clean_company_name "The Coursera Inc." = "Coursera" := by decide

/-- C4: `validate_file` accepts exactly the non-null uploads of size at
most 200MB whose MIME type is `application/pdf`. -/
theorem validate_file_iff (o : Option UploadedFile) :
    (validate_file o).1 = true ↔
      ∃ f, o = some f ∧ f.size ≤ 200 * 1024 * 1024 ∧ f.type = "application/pdf" := by
  cases o with
  | none => simp [validate_file]
  | some f =>
    simp only [validate_file]
    split_ifs with h1 h2
    · simp only [false_iff]
      rintro ⟨g, hg, hsize, -⟩
      cases Option.some.injEq .. ▸ hg
      omega
    · simp only [false_iff]
      rintro ⟨g, hg, -, htype⟩
      cases Option.some.injEq .. ▸ hg
      exact h2 htype
    · constructor
      · intro _
        exact ⟨f, rfl, by omega, by simpa using h2⟩
      · intro _; rfl

/-- C2: against a service that raises on every call, the default three
attempts are all made and the error string of the last exception is
returned; the second component counts the service invocations. -/
theorem get_company_name_always_throws (msg : Nat → String) :
    get_company_name_from_pdf (fun n => ServiceOutcome.throws (msg n)) 3 =
      ("Error extracting company name: " ++ msg 2, 3) := rfl

theorem extractLoop_empty_text (max_retries : Nat) :
    ∀ (remaining attempt : Nat),
      extractLoop (fun _ => ServiceOutcome.respond "") max_retries attempt remaining =
        ("Unknown_Company", remaining) := by
  intro remaining
  induction remaining with
  | zero => intro attempt; rfl
  | succ n ih => intro attempt; simp [extractLoop, ih]

/-- C3: against a service that returns an empty text on every attempt, all
retries are exhausted and the sentinel `"Unknown_Company"` is returned
(never an error string). -/
theorem get_company_name_empty_response (max_retries : Nat) :
    get_company_name_from_pdf (fun _ => ServiceOutcome.respond "") max_retries =
      ("Unknown_Company", max_retries) :=
  extractLoop_empty_text max_retries max_retries 0

theorem extractLoop_quality (service : Nat → ServiceOutcome) (max_retries : Nat) :
    ∀ (remaining attempt : Nat),
      (extractLoop service max_retries attempt remaining).1 = "Unknown_Company" ∨
      (∃ e, (extractLoop service max_retries attempt remaining).1 =
        "Error extracting company name: " ++ e) ∨
      1 < (extractLoop service max_retries attempt remaining).1.length := by
  intro remaining
  induction remaining with
  | zero => intro attempt; exact Or.inl rfl
  | succ n ih =>
    intro attempt
    show (match service attempt with | _ => _ : String × Nat).1 = _ ∨ _
    cases hs : service attempt with
    | respond t =>
      by_cases ht : t = ""
      · simpa [extractLoop, hs, ht] using ih (attempt + 1)
      · rw [extractLoop]
        simp only [hs, if_neg ht]
        split
        · next hval => exact Or.inr (Or.inr (by simpa using hval.2.2))
        · simpa using ih (attempt + 1)
    | throws e =>
      rw [extractLoop]
      simp only [hs]
      split
      · exact Or.inr (Or.inl ⟨e, rfl⟩)
      · simpa using ih (attempt + 1)

/-! ### The cleaning pipeline fixes its own output (when nonempty) -/

theorem mem_of_matchDropCI :
    ∀ (pat l r : List Char), matchDropCI pat l = some r → ∀ c ∈ r, c ∈ l := by
  intro pat
  induction pat with
  | nil =>
    intro l r h c hc
    cases h
    exact hc
  | cons p ps ih =>
    intro l r h c hc
    cases l with
    | nil => exact absurd h (by simp [matchDropCI])
    | cons a as =>
      rw [matchDropCI] at h
      split at h
      · exact List.mem_cons_of_mem _ (ih as r h c hc)
      · exact absurd h (by simp)

theorem articleRest_of_no_space (pat l : List Char)
    (h : ∀ c ∈ l, isPySpace c = false) : articleRest pat l = none := by
  unfold articleRest
  cases hm : matchDropCI pat l with
  | none => rfl
  | some r =>
    cases r with
    | nil => rfl
    | cons c cs =>
      have hc : isPySpace c = false :=
        h c (mem_of_matchDropCI pat l (c :: cs) hm c (by simp))
      simp [hc]

theorem stripArticle_of_no_space (l : List Char)
    (h : ∀ c ∈ l, isPySpace c = false) : stripArticle l = l := by
  unfold stripArticle
  rw [articleRest_of_no_space _ _ h, articleRest_of_no_space _ _ h]

theorem wsBeforeSuffix_of_no_space (alt l : List Char)
    (h : ∀ c ∈ l, isPySpace c = false) : wsBeforeSuffix alt l = false := by
  unfold wsBeforeSuffix
  cases hg : (l.take (l.length - alt.length)).getLast? with
  | none => rfl
  | some c =>
    exact h c ((List.take_sublist _ _).subset (List.mem_of_getLast?_eq_some hg))

theorem stripLegalSuffix_of_no_space (l : List Char)
    (h : ∀ c ∈ l, isPySpace c = false) : stripLegalSuffix l = l := by
  unfold stripLegalSuffix
  have hfind :
      legalSuffixes.find? (fun alt => endsWithCI alt l && wsBeforeSuffix alt l) = none := by
    rw [List.find?_eq_none]
    intro alt _
    rw [wsBeforeSuffix_of_no_space alt l h]
    simp
  rw [hfind]

theorem replaceBadChars_of_no_bad (l : List Char)
    (h : ∀ c ∈ l, invalidFsChars.contains c = false) : replaceBadChars l = l := by
  unfold replaceBadChars
  rw [show l.map (fun c => if invalidFsChars.contains c then '_' else c) = l.map id from
    List.map_congr_left (fun a ha => by rw [h a ha]; rfl)]
  exact List.map_id l

theorem dropWhile_of_forall_false (p : Char → Bool) (l : List Char)
    (h : ∀ c ∈ l, p c = false) : l.dropWhile p = l := by
  cases l with
  | nil => rfl
  | cons a as => rw [List.dropWhile_cons, h a (by simp), if_neg (by simp)]

theorem stripEnds_of_no_space (p : Char → Bool) (l : List Char)
    (h : ∀ c ∈ l, p c = false) : stripEnds p l = l := by
  unfold stripEnds
  rw [dropWhile_of_forall_false p l h,
    dropWhile_of_forall_false p l.reverse (fun c hc => h c (List.mem_reverse.mp hc)),
    List.reverse_reverse]

theorem collapseGo_of_no_space :
    ∀ (l : List Char) (b : Bool), (∀ c ∈ l, isPySpace c = false) → collapseGo b l = l := by
  intro l
  induction l with
  | nil => intro b _; rfl
  | cons a as ih =>
    intro b h
    rw [collapseGo]
    rw [if_neg (by rw [h a (by simp)]; simp),
      ih false (fun c hc => h c (List.mem_cons_of_mem _ hc))]

/-- C9 counterexample: `clean_company_name` is not idempotent.  Cleaning
`"The "` gives the empty string, and cleaning that gives the sentinel. -/
theorem clean_company_name_not_idempotent :
    clean_company_name (clean_company_name "The ") ≠ clean_company_name "The " := by
  decide

theorem clean_company_name_fixes (r : String) (hr : r ≠ "")
    (hspace : ∀ c ∈ r.data, isPySpace c = false)
    (hbad : ∀ c ∈ r.data, invalidFsChars.contains c = false)
    (hlen : r.data.length ≤ 50) : clean_company_name r = r := by
  unfold clean_company_name
  rw [if_neg hr]
  show String.mk ((collapseGo false (stripEnds isPySpace
    (replaceBadChars (stripLegalSuffix (stripArticle r.data))))).take 50) = r
  rw [stripArticle_of_no_space _ hspace, stripLegalSuffix_of_no_space _ hspace,
    replaceBadChars_of_no_bad _ hbad, stripEnds_of_no_space _ _ hspace,
    collapseGo_of_no_space _ _ hspace, List.take_of_length_le hlen]

/-- C9 (amended): whenever a cleaned name is nonempty, cleaning it again
changes nothing; idempotence fails only at inputs cleaned to `""`. -/
theorem clean_company_name_idem (s : String) (h : clean_company_name s ≠ "") :
    clean_company_name (clean_company_name s) = clean_company_name s :=
  clean_company_name_fixes (clean_company_name s) h (clean_no_space s)
    (clean_no_bad s) (clean_len_le s)

/-- C9 amended-claim witness at `"Coursera"`. -/
theorem clean_company_name_idem_witness :
    clean_company_name "Coursera" ≠ "" ∧
    clean_company_name (clean_company_name "Coursera") = clean_company_name "Coursera" :=
  ⟨by decide, clean_company_name_idem "Coursera" (by decide)⟩

/-- C10: the extraction never returns a successfully extracted name of
length one or less: every result is the sentinel, an error string, or a
name longer than one character. -/
theorem get_company_name_min_length (service : Nat → ServiceOutcome) (max_retries : Nat) :
    (get_company_name_from_pdf service max_retries).1 = "Unknown_Company" ∨
    (∃ e, (get_company_name_from_pdf service max_retries).1 =
      "Error extracting company name: " ++ e) ∨
    1 < (get_company_name_from_pdf service max_retries).1.length :=
  extractLoop_quality service max_retries max_retries 0

/-! ### Batch accounting -/

theorem processOne_counts (st : BatchStats) (job : FileJob) :
    (processOne st job).1.successful + (processOne st job).1.failed =
      st.successful + st.failed + 1 := by
  unfold processOne
  by_cases hv : (validate_file (some ⟨job.size, job.mime⟩)).1 = false
  · simp [hv]; omega
  · rw [if_neg hv]
    cases hp : job.pdfResult with
    | error e => simp; omega
    | ok u =>
      by_cases hc : containsSub "Error".data job.companyName.data = false ∧
          job.companyName ≠ "Unknown_Company"
      · rw [if_pos hc]
        cases hsv : job.saveResult with
        | error e => simp; omega
        | ok p => simp; omega
      · rw [if_neg hc]; simp; omega

theorem processOne_record (st : BatchStats) (job : FileJob) :
    (processOne st job).2 = (processOne ⟨0, 0⟩ job).2 := by
  unfold processOne
  by_cases hv : (validate_file (some ⟨job.size, job.mime⟩)).1 = false
  · simp [hv]
  · rw [if_neg hv, if_neg hv]
    cases hp : job.pdfResult with
    | error e => rfl
    | ok u =>
      by_cases hc : containsSub "Error".data job.companyName.data = false ∧
          job.companyName ≠ "Unknown_Company"
      · rw [if_pos hc, if_pos hc]
        cases hsv : job.saveResult with
        | error e => rfl
        | ok p => rfl
      · rw [if_neg hc, if_neg hc]

theorem runBatch_fold_counts (jobs : List FileJob) :
    ∀ (st : BatchStats) (rs : List FileRecord),
      (jobs.foldl (fun acc job =>
          let r := processOne acc.1 job
          (r.1, acc.2 ++ [r.2])) (st, rs)).1.successful +
        (jobs.foldl (fun acc job =>
          let r := processOne acc.1 job
          (r.1, acc.2 ++ [r.2])) (st, rs)).1.failed =
        st.successful + st.failed + jobs.length := by
  induction jobs with
  | nil => intro st rs; simp
  | cons j js ih =>
    intro st rs
    simp only [List.foldl_cons, List.length_cons]
    rw [ih (processOne st j).1 (rs ++ [(processOne st j).2])]
    rw [processOne_counts st j]
    omega

theorem runBatch_fold_records (jobs : List FileJob) :
    ∀ (st : BatchStats) (rs : List FileRecord),
      (jobs.foldl (fun acc job =>
          let r := processOne acc.1 job
          (r.1, acc.2 ++ [r.2])) (st, rs)).2 =
        rs ++ jobs.map (fun j => (processOne ⟨0, 0⟩ j).2) := by
  induction jobs with
  | nil => intro st rs; simp
  | cons j js ih =>
    intro st rs
    simp only [List.foldl_cons, List.map_cons]
    rw [ih (processOne st j).1 (rs ++ [(processOne st j).2])]
    rw [processOne_record st j, List.append_assoc]
    rfl

/-! ### Freshness of saved paths -/

theorem natDecimalAux_eq_digits :
    ∀ (fuel : Nat), ∀ (n : Nat), 0 < n → n < 10 ^ (fuel + 1) →
      natDecimalAux fuel n = ((Nat.digits 10 n).map Nat.digitChar).reverse := by
  intro fuel
  induction fuel with
  | zero =>
    intro n hn hlt
    rw [natDecimalAux, Nat.digits_of_lt 10 n (by omega) (by simpa using hlt)]
    rfl
  | succ f ih =>
    intro n hn hlt
    rw [natDecimalAux]
    by_cases h10 : n < 10
    · rw [if_pos h10, Nat.digits_of_lt 10 n (by omega) h10]
      rfl
    · rw [if_neg h10, Nat.digits_def' (by norm_num) hn]
      rw [List.map_cons, List.reverse_cons]
      rw [ih (n / 10) (Nat.div_pos (by omega) (by omega))
        (by rw [Nat.div_lt_iff_lt_mul (by omega : (0:Nat) < 10)]
            calc n < 10 ^ (f + 1 + 1) := hlt
              _ = 10 ^ (f + 1) * 10 := pow_succ 10 (f + 1))]

theorem natDecimal_eq_digits (n : Nat) (hn : 0 < n) :
    natDecimal n = ((Nat.digits 10 n).map Nat.digitChar).reverse :=
  natDecimalAux_eq_digits n n hn
    (lt_of_lt_of_le (Nat.lt_pow_self (by norm_num) n)
      (Nat.pow_le_pow_right (by omega) (by omega)))

theorem digitChar_inj_lt (a b : Nat) (ha : a < 10) (hb : b < 10)
    (h : Nat.digitChar a = Nat.digitChar b) : a = b := by
  interval_cases a <;> interval_cases b <;> first | rfl | exact absurd h (by decide)

theorem map_digitChar_inj :
    ∀ (l₁ l₂ : List Nat), (∀ x ∈ l₁, x < 10) → (∀ x ∈ l₂, x < 10) →
      l₁.map Nat.digitChar = l₂.map Nat.digitChar → l₁ = l₂ := by
  intro l₁
  induction l₁ with
  | nil =>
    intro l₂ _ _ h
    cases l₂ with
    | nil => rfl
    | cons b bs => exact absurd h (by simp)
  | cons a as ih =>
    intro l₂ h1 h2 h
    cases l₂ with
    | nil => exact absurd h (by simp)
    | cons b bs =>
      rw [List.map_cons, List.map_cons] at h
      have hab := digitChar_inj_lt a b (h1 a (by simp)) (h2 b (by simp))
        (List.head_eq_of_cons_eq h)
      rw [hab, ih bs (fun x hx => h1 x (List.mem_cons_of_mem _ hx))
        (fun x hx => h2 x (List.mem_cons_of_mem _ hx)) (List.tail_eq_of_cons_eq h)]

theorem natDecimal_inj_pos (m n : Nat) (hm : 0 < m) (hn : 0 < n)
    (h : natDecimal m = natDecimal n) : m = n := by
  rw [natDecimal_eq_digits m hm, natDecimal_eq_digits n hn] at h
  have h2 := List.reverse_injective h
  have h3 := map_digitChar_inj _ _
    (fun x hx => Nat.digits_lt_base (by norm_num) hx)
    (fun x hx => Nat.digits_lt_base (by norm_num) hx) h2
  have h4 := congrArg (Nat.ofDigits 10) h3
  rwa [Nat.ofDigits_digits, Nat.ofDigits_digits] at h4

/-- The varying part of the probed filename after `base_timestamp`. -/
def candTail : Nat → List Char
  | 0 => ".pdf".data
  | k + 1 => '_' :: (natDecimal (k + 1) ++ ".pdf".data)

theorem candName_data (base ts : String) :
    ∀ k, (candName base ts k).data = base.data ++ '_' :: (ts.data ++ candTail k) := by
  intro k
  cases k with
  | zero => simp [candName, candTail]
  | succ j => simp [candName, candTail]

theorem candName_inj (base ts : String) (k j : Nat)
    (h : candName base ts k = candName base ts j) : k = j := by
  have hd := congrArg String.data h
  rw [candName_data, candName_data] at hd
  have h1 := List.append_cancel_left hd
  have h2 : candTail k = candTail j :=
    List.append_cancel_left (List.tail_eq_of_cons_eq h1)
  cases k with
  | zero =>
    cases j with
    | zero => rfl
    | succ j' =>
      have hl := congrArg List.length h2
      simp [candTail] at hl
  | succ k' =>
    cases j with
    | zero =>
      have hl := congrArg List.length h2
      simp [candTail] at hl
    | succ j' =>
      rw [candTail, candTail] at h2
      have h3 := List.tail_eq_of_cons_eq h2
      have hlen : (natDecimal (k' + 1)).length = (natDecimal (j' + 1)).length := by
        have hl := congrArg List.length h3
        simp at hl
        omega
      have h4 := (List.append_inj h3 hlen).1
      have := natDecimal_inj_pos (k' + 1) (j' + 1) (by omega) (by omega) h4
      omega

theorem candName_head (base ts : String) (k : Nat) :
    (candName base ts k).data.head? = some (base.data.headD '_') := by
  rw [candName_data]
  cases base.data with
  | nil => rfl
  | cons c cs => rfl

theorem headD_ne_slash (base : String) (h : base.data.head? ≠ some '/') :
    base.data.headD '_' ≠ '/' := by
  cases hb : base.data with
  | nil => decide
  | cons a l =>
    rw [hb] at h
    intro hc
    simp only [List.headD] at hc
    exact h (by rw [hc]; rfl)

theorem fullCand_inj (folder base ts : String) (k j : Nat)
    (h : posixJoin folder (candName base ts k) = posixJoin folder (candName base ts j)) :
    k = j := by
  unfold posixJoin at h
  by_cases hh : base.data.headD '_' = '/'
  · rw [if_pos (by rw [candName_head, hh]), if_pos (by rw [candName_head, hh])] at h
    exact candName_inj base ts k j h
  · have hk : ¬ (candName base ts k).data.head? = some '/' := by
      rw [candName_head]; intro hc; exact hh (by injection hc)
    have hj : ¬ (candName base ts j).data.head? = some '/' := by
      rw [candName_head]; intro hc; exact hh (by injection hc)
    rw [if_neg hk, if_neg hj] at h
    by_cases hf : folder.data = [] ∨ folder.data.getLast? = some '/'
    · rw [if_pos hf, if_pos hf] at h
      have hd := congrArg String.data h
      rw [String.data_append, String.data_append] at hd
      exact candName_inj base ts k j (String.ext (List.append_cancel_left hd))
    · rw [if_neg hf, if_neg hf] at h
      have hd := congrArg String.data h
      rw [String.data_append, String.data_append] at hd
      exact candName_inj base ts k j (String.ext (List.append_cancel_left hd))

theorem probeName_eq_cand (fs : List String) (cand : Nat → String) :
    ∀ (fuel k : Nat), ∃ j, j ≤ fuel ∧ probeName fs cand fuel k = cand (k + j) := by
  intro fuel
  induction fuel with
  | zero => intro k; exact ⟨0, Nat.le_refl 0, rfl⟩
  | succ f ih =>
    intro k
    rw [probeName]
    by_cases hm : cand k ∈ fs
    · rw [if_pos hm]
      rcases ih (k + 1) with ⟨j, hj, he⟩
      exact ⟨j + 1, by omega, by rw [he]; exact congrArg cand (by omega)⟩
    · rw [if_neg hm]
      exact ⟨0, by omega, rfl⟩

theorem probeName_not_mem_of_free (fs : List String) (cand : Nat → String) :
    ∀ (fuel k : Nat), (∃ j, j ≤ fuel ∧ cand (k + j) ∉ fs) →
      probeName fs cand fuel k ∉ fs := by
  intro fuel
  induction fuel with
  | zero =>
    rintro k ⟨j, hj, hfree⟩
    have hj0 : j = 0 := by omega
    subst hj0
    simpa [probeName] using hfree
  | succ f ih =>
    rintro k ⟨j, hj, hfree⟩
    rw [probeName]
    by_cases hm : cand k ∈ fs
    · rw [if_pos hm]
      apply ih (k + 1)
      cases j with
      | zero => exact absurd (by simpa using hm) (by simpa using hfree)
      | succ j' =>
        exact ⟨j', by omega, by
          have : k + 1 + j' = k + (j' + 1) := by omega
          rw [this]; exact hfree⟩
    · rw [if_neg hm]
      exact hm

theorem exists_free_cand (fs : List String) (cand : Nat → String)
    (hinj : ∀ k j, cand k = cand j → k = j) (k : Nat) :
    ∃ j, j ≤ fs.length ∧ cand (k + j) ∉ fs := by
  by_contra hall
  push_neg at hall
  have hsub : (Finset.range (fs.length + 1)).image (fun j => cand (k + j)) ⊆
      fs.toFinset := by
    intro x hx
    rcases Finset.mem_image.mp hx with ⟨j, hj, rfl⟩
    exact List.mem_toFinset.mpr (hall j (Nat.lt_succ_iff.mp (Finset.mem_range.mp hj)))
  have hinj2 : Function.Injective (fun j => cand (k + j)) := by
    intro a b hab
    have := hinj (k + a) (k + b) hab
    omega
  have hcard : fs.length + 1 ≤ fs.toFinset.card := by
    calc fs.length + 1
        = ((Finset.range (fs.length + 1)).image (fun j => cand (k + j))).card := by
          rw [Finset.card_image_of_injective _ hinj2, Finset.card_range]
      _ ≤ fs.toFinset.card := Finset.card_le_card hsub
  have hle := fs.toFinset_card_le
  omega

theorem save_fresh (fs : List String) (c ts o : String) :
    (save_certificate_to_company_folder fs c ts o).1 ∉ fs := by
  show probeName fs
    (fun k => posixJoin (posixJoin "certificates" c) (candName (splitextRoot o) ts k))
    fs.length 0 ∉ fs
  exact probeName_not_mem_of_free fs _ fs.length 0
    (exists_free_cand fs _
      (fun k j h => fullCand_inj (posixJoin "certificates" c) (splitextRoot o) ts k j h) 0)

/-- C5: a saved path never collides with an existing one, so saving the
same original filename twice into the same company folder yields two
distinct on-disk paths. -/
theorem save_twice_distinct (fs : List String) (c ts1 ts2 o : String) :
    (save_certificate_to_company_folder fs c ts1 o).1 ∉ fs ∧
    (save_certificate_to_company_folder
        (save_certificate_to_company_folder fs c ts1 o).2 c ts2 o).1 ≠
      (save_certificate_to_company_folder fs c ts1 o).1 := by
  refine ⟨save_fresh fs c ts1 o, ?_⟩
  intro heq
  have h2 := save_fresh (save_certificate_to_company_folder fs c ts1 o).2 c ts2 o
  rw [heq] at h2
  exact h2 (List.mem_cons_self _ _)

theorem posixJoin_certificates (c : String) (h : c.data.head? ≠ some '/') :
    posixJoin "certificates" c = "certificates/" ++ c := by
  unfold posixJoin
  rw [if_neg h, if_neg (by decide)]
  rw [show ("certificates" : String) ++ "/" = "certificates/" by decide]

theorem posixJoin_sep (folder name : String) (hne : folder.data ≠ [])
    (hlast : folder.data.getLast? ≠ some '/') (hhead : name.data.head? ≠ some '/') :
    posixJoin folder name = folder ++ "/" ++ name := by
  unfold posixJoin
  rw [if_neg hhead, if_neg (by
    rintro (h | h)
    · exact hne h
    · exact hlast h)]

/-- C7 (amended): for a nonempty company name that neither starts nor ends
with a separator, and an original filename whose extension-stripped base
does not start with a separator, every saved path has the layout
`certificates/<company>/<base>_<timestamp>[_<counter>].pdf`, the existing
files are all still present afterwards, and no existing path is
overwritten. -/
theorem save_path_layout (fs : List String) (c ts o : String)
    (h1 : c ≠ "") (h2 : c.data.head? ≠ some '/') (h3 : c.data.getLast? ≠ some '/')
    (h4 : (splitextRoot o).data.head? ≠ some '/') :
    ((save_certificate_to_company_folder fs c ts o).1 =
        "certificates/" ++ c ++ "/" ++ (splitextRoot o ++ "_" ++ ts ++ ".pdf") ∨
      ∃ k, 1 ≤ k ∧ (save_certificate_to_company_folder fs c ts o).1 =
        "certificates/" ++ c ++ "/" ++
          (splitextRoot o ++ "_" ++ ts ++ "_" ++ String.mk (natDecimal k) ++ ".pdf")) ∧
    (save_certificate_to_company_folder fs c ts o).1 ∉ fs ∧
    ∀ q ∈ fs, q ∈ (save_certificate_to_company_folder fs c ts o).2 := by
  refine ⟨?_, save_fresh fs c ts o, ?_⟩
  · have hjoin : ∀ k,
        posixJoin (posixJoin "certificates" c) (candName (splitextRoot o) ts k) =
          "certificates/" ++ c ++ "/" ++ candName (splitextRoot o) ts k := by
      intro k
      rw [posixJoin_certificates c h2]
      rw [posixJoin_sep _ _ ?hne ?hlast ?hhead]
      case hne =>
        rw [String.data_append]
        intro hnil
        exact h1 (String.ext (List.append_eq_nil.mp hnil).2)
      case hlast =>
        rw [String.data_append, List.getLast?_append]
        cases hcd : c.data with
        | nil => exact absurd (String.ext hcd) h1
        | cons a l =>
          rw [hcd] at h3
          rcases Option.isSome_iff_exists.mp
            (by rw [List.getLast?_isSome]; simp : ((a :: l).getLast?).isSome) with ⟨v, hv⟩
          rw [hv]
          rw [hv] at h3
          simpa using h3
      case hhead =>
        rw [candName_head]
        intro hc
        exact absurd (by injection hc) (headD_ne_slash _ h4)
    rcases probeName_eq_cand fs
      (fun k => posixJoin (posixJoin "certificates" c) (candName (splitextRoot o) ts k))
      fs.length 0 with ⟨j, _, he⟩
    have hpath : (save_certificate_to_company_folder fs c ts o).1 =
        posixJoin (posixJoin "certificates" c) (candName (splitextRoot o) ts (0 + j)) := he
    rw [Nat.zero_add] at hpath
    cases j with
    | zero =>
      left
      rw [hpath, hjoin 0]
      rfl
    | succ k' =>
      right
      exact ⟨k' + 1, by omega, by rw [hpath, hjoin (k' + 1)]; rfl⟩
  · intro q hq
    exact List.mem_cons_of_mem _ hq

/-- C7 amended-claim witness: a concrete save against a one-file store. -/
theorem save_path_layout_witness :
    ((save_certificate_to_company_folder ["x"] "Coursera" "T" "cert.pdf").1 =
        "certificates/" ++ "Coursera" ++ "/" ++
          (splitextRoot "cert.pdf" ++ "_" ++ "T" ++ ".pdf") ∨
      ∃ k, 1 ≤ k ∧ (save_certificate_to_company_folder ["x"] "Coursera" "T" "cert.pdf").1 =
        "certificates/" ++ "Coursera" ++ "/" ++
          (splitextRoot "cert.pdf" ++ "_" ++ "T" ++ "_" ++ String.mk (natDecimal k) ++ ".pdf")) ∧
    (save_certificate_to_company_folder ["x"] "Coursera" "T" "cert.pdf").1 ∉ ["x"] ∧
    ∀ q ∈ ["x"],
      q ∈ (save_certificate_to_company_folder ["x"] "Coursera" "T" "cert.pdf").2 :=
  save_path_layout ["x"] "Coursera" "T" "cert.pdf" (by decide) (by decide) (by decide)
    (by decide)

/-- C7 counterexample: for a company name that is an absolute path,
`os.path.join` discards the `certificates` root, so the returned path does
not lie under `certificates/` and the claimed layout fails. -/
theorem save_path_layout_cex :
    (save_certificate_to_company_folder [] "/x" "T" "cert.pdf").1 = "/x/cert_T.pdf" ∧
    ((save_certificate_to_company_folder [] "/x" "T" "cert.pdf").1).data.take 13 ≠
      "certificates/".data := by
  exact ⟨by decide, by decide⟩

/-- C8: the batch loop accounts for every file: the counters sum to the
number of files, and the result list carries exactly one record per file,
in order, regardless of how the individual files fail. -/
theorem runBatch_accounts (jobs : List FileJob) :
    (runBatch jobs).1.successful + (runBatch jobs).1.failed = jobs.length ∧
    (runBatch jobs).2.length = jobs.length ∧
    (runBatch jobs).2 = jobs.map (fun j => (processOne ⟨0, 0⟩ j).2) := by
  refine ⟨?_, ?_, ?_⟩
  · have h := runBatch_fold_counts jobs ⟨0, 0⟩ []
    simpa [runBatch] using h
  · have h := runBatch_fold_records jobs ⟨0, 0⟩ []
    simp only [runBatch]
    rw [show (jobs.foldl (fun acc job =>
        (((processOne acc.1 job)).1, acc.2 ++ [(processOne acc.1 job).2]))
        (⟨0, 0⟩, [])).2 = _ from h]
    simp
  · have h := runBatch_fold_records jobs ⟨0, 0⟩ []
    simpa [runBatch] using h

end CertClustering
